import Mathlib

/-!
Shallow embedding of the task-interruption subsystem of the repository
(`backend/interruption_manager.py` and `backend/state_store.py`).

Modelling conventions:
* Python objects of class `TaskContext` are heap cells: `ManagerState.ctxs`
  is the heap (a list of contexts, one cell per context ever created) and a
  handle is an index into it.  `self._user_tasks` and
  `self._interrupted_history` store handles, so Python reference aliasing
  (the same context object being both the active task and a history entry)
  is represented faithfully.
* `uuid.uuid4()` is modelled by the fresh handle itself: each call of
  `create_task_context` allocates a new cell at the end of the heap, and the
  cell's index doubles as its `task_id`; distinct calls get distinct ids.
* `datetime.now()` is a logical clock: `ManagerState.clock` is incremented
  once per manager operation that reads the current time, so later
  timestamps are strictly larger.
* Python `dict`s keyed by strings are association lists without duplicate
  keys, updated by `dictSet` (replace in place, or append when absent),
  which matches insertion-order-preserving `dict` assignment.
* Arbitrary payloads (`Any` in the source) are modelled as `String`.
* `asyncio.Event` is a `Bool` (`cancel_event`); `event.set()` writes `true`.
* The `task : Optional[asyncio.Task]` field and `task.cancel()` only affect
  the external event loop, never the manager's own state, and are omitted.
* `_notify_status_change` performs no state mutation (callbacks are external
  effects); the fan-out loop itself is modelled by `notify_status_change`.
-/

/-- Lookup in a Python dict modelled as an association list
(first matching key wins; lists built by `dictSet` have no duplicates). -/
def dictGet? {β : Type} : List (String × β) → String → Option β
  | [], _ => none
  | (k, v) :: rest, key => if k = key then some v else dictGet? rest key

/-- Python dict assignment `d[k] = v`: replace the value at an existing key
in place, otherwise append the new pair at the end. -/
def dictSet {β : Type} : List (String × β) → String → β → List (String × β)
  | [], k, v => [(k, v)]
  | (k0, v0) :: rest, k, v =>
    if k0 = k then (k, v) :: rest else (k0, v0) :: dictSet rest k v

/-- Task status enumeration (`TaskStatus` in the source). -/
inductive TaskStatus
  | idle
  | queued
  | running
  | interrupted
  | completed
  | failed
  | cancelled
deriving DecidableEq

/-- The `.value` string of a `TaskStatus` member. -/
def TaskStatus.value : TaskStatus → String
  | .idle => "idle"
  | .queued => "queued"
  | .running => "running"
  | .interrupted => "interrupted"
  | .completed => "completed"
  | .failed => "failed"
  | .cancelled => "cancelled"

/-- One task attempt (`TaskContext` dataclass in the source). -/
structure TaskContext where
  task_id : Nat
  user_id : String
  query : String
  intent : String
  status : TaskStatus
  created_at : Nat
  updated_at : Nat
  current_agent : Option String := none
  agents_completed : List String := []
  partial_results : List (String × String) := []
  final_results : Option (List (String × String)) := none
  cancel_event : Bool := false
  error : Option String := none
deriving DecidableEq

/-- The mutable state of an `InterruptionManager` instance.
`ctxs` is the heap of every `TaskContext` ever created; `user_tasks` and
`history` hold handles (indices) into it. -/
structure ManagerState where
  ctxs : List TaskContext := []
  user_tasks : List (String × Nat) := []
  history : List (String × List Nat) := []
  clock : Nat := 0
deriving DecidableEq

/-- A freshly constructed `InterruptionManager`. -/
def initState : ManagerState := {}

/-- The interruption-history list of a user (empty when the user has no
entry, as for a missing dict key in Python). -/
def histOf (s : ManagerState) (u : String) : List Nat :=
  (dictGet? s.history u).getD []

/-- `InterruptionManager._interrupt_task_internal(user_id, preserve_context)`:
no-op when the user has no active task; otherwise set the cancellation
event, mark the context INTERRUPTED, refresh `updated_at`, and (when
`preserve_context`) append the context to the user's history, popping the
oldest entry when the list then exceeds 5. -/
def interrupt_task_internal (s : ManagerState) (u : String) (preserve : Bool) :
    ManagerState :=
  match dictGet? s.user_tasks u with
  | none => s
  | some i =>
    match s.ctxs[i]? with
    | none => s
    | some ctx =>
      let ctx' := { ctx with
        cancel_event := true
        status := TaskStatus.interrupted
        updated_at := s.clock }
      let hist := histOf s u ++ [i]
      let hist' := if 5 < hist.length then hist.tail else hist
      { s with
        ctxs := s.ctxs.set i ctx'
        history := if preserve then dictSet s.history u hist' else s.history
        clock := s.clock + 1 }

/-- `InterruptionManager.interrupt_task(user_id, preserve_context=True)`. -/
def interrupt_task (s : ManagerState) (u : String) (preserve : Bool := true) :
    ManagerState :=
  interrupt_task_internal s u preserve

/-- `InterruptionManager.create_task_context(user_id, query, intent="")`:
interrupt the existing active task (preserving context) if present, then
allocate a fresh QUEUED context with a new unique id and install it as the
user's active task.  Returns the new context together with the new state. -/
def create_task_context (s : ManagerState) (u q : String) (intent : String := "") :
    TaskContext × ManagerState :=
  let s1 := if (dictGet? s.user_tasks u).isSome
            then interrupt_task_internal s u true else s
  let i := s1.ctxs.length
  let ctx : TaskContext := {
    task_id := i
    user_id := u
    query := q
    intent := intent
    status := TaskStatus.queued
    created_at := s1.clock
    updated_at := s1.clock }
  (ctx, { s1 with
    ctxs := s1.ctxs ++ [ctx]
    user_tasks := dictSet s1.user_tasks u i
    clock := s1.clock + 1 })

/-- Python truthiness of an `Optional[str]`: `None` and `""` are falsy. -/
def truthy : Option String → Bool
  | none => false
  | some a => a ≠ ""

/-- `InterruptionManager.update_task_status(user_id, status, current_agent,
partial_results, error)`: no-op without an active task; otherwise set the
status and `updated_at`, handle the current-agent bookkeeping exactly as the
source does (note the source assigns `context.current_agent = current_agent`
before comparing it with `current_agent`), merge supplied partial results
key by key, and set `error` when truthy. -/
def applyStatusUpdate (ctx : TaskContext) (st : TaskStatus)
    (current_agent : Option String)
    (partial_results : Option (List (String × String)))
    (error : Option String) (now : Nat) : TaskContext :=
  let c0 := { ctx with status := st, updated_at := now }
  let c1 :=
    if truthy current_agent then
      let c := { c0 with current_agent := current_agent }
      if c.agents_completed.contains (current_agent.getD "") then c
      else
        if truthy c.current_agent ∧ c.current_agent ≠ current_agent then
          { c with agents_completed :=
              c.agents_completed ++ [c.current_agent.getD ""] }
        else c
    else c0
  let c2 :=
    match partial_results with
    | none => c1
    | some pr =>
      if pr = [] then c1
      else { c1 with partial_results :=
               pr.foldl (fun m kv => dictSet m kv.1 kv.2) c1.partial_results }
  match error with
  | none => c2
  | some e => if e = "" then c2 else { c2 with error := some e }

/-- `InterruptionManager.update_task_status(...)` proper: no-op without an
active task, otherwise replace the active cell with the updated context
(`applyStatusUpdate` is the body of the locked section). -/
def update_task_status (s : ManagerState) (u : String) (st : TaskStatus)
    (current_agent : Option String := none)
    (partial_results : Option (List (String × String)) := none)
    (error : Option String := none) : ManagerState :=
  match dictGet? s.user_tasks u with
  | none => s
  | some i =>
    match s.ctxs[i]? with
    | none => s
    | some ctx =>
      { s with
        ctxs := s.ctxs.set i
          (applyStatusUpdate ctx st current_agent partial_results error s.clock)
        clock := s.clock + 1 }

/-- `InterruptionManager.save_partial_results(user_id, agent_name, results)`:
no-op without an active task; otherwise overwrite
`partial_results[agent_name]` in the active context and refresh
`updated_at`. -/
def save_partial_results (s : ManagerState) (u agent : String)
    (results : String) : ManagerState :=
  match dictGet? s.user_tasks u with
  | none => s
  | some i =>
    match s.ctxs[i]? with
    | none => s
    | some ctx =>
      let ctx' := { ctx with
        partial_results := dictSet ctx.partial_results agent results
        updated_at := s.clock }
      { s with ctxs := s.ctxs.set i ctx', clock := s.clock + 1 }

/-- `InterruptionManager.complete_task(user_id, final_results,
status=COMPLETED)`: no-op without an active task; otherwise set the final
status and results, refresh `updated_at`, and append the current agent to
`agents_completed` when it is truthy and not already present. -/
def complete_task (s : ManagerState) (u : String)
    (final : List (String × String))
    (st : TaskStatus := TaskStatus.completed) : ManagerState :=
  match dictGet? s.user_tasks u with
  | none => s
  | some i =>
    match s.ctxs[i]? with
    | none => s
    | some ctx =>
      let c0 := { ctx with
        status := st
        final_results := some final
        updated_at := s.clock }
      let c1 :=
        if truthy c0.current_agent ∧
            ¬ c0.agents_completed.contains (c0.current_agent.getD "")
        then { c0 with agents_completed :=
                 c0.agents_completed ++ [c0.current_agent.getD ""] }
        else c0
      { s with ctxs := s.ctxs.set i c1, clock := s.clock + 1 }

/-- Return value of `InterruptionManager.get_previous_context`. -/
structure PreviousContext where
  previous_query : String
  previous_intent : String
  partial_results : List (String × String)
  agents_completed : List String
  interrupted_at : Nat
deriving DecidableEq

/-- `InterruptionManager.get_previous_context(user_id, query)`: `None` when
the user's interruption history is absent or empty; otherwise a snapshot of
the most recently interrupted context (the `query` argument is ignored by
the current recency policy). -/
def get_previous_context (s : ManagerState) (u : String) (_query : String) :
    Option PreviousContext :=
  match dictGet? s.history u with
  | none => none
  | some hist =>
    match hist.getLast? with
    | none => none
    | some i =>
      match s.ctxs[i]? with
      | none => none
      | some c =>
        some {
          previous_query := c.query
          previous_intent := c.intent
          partial_results := c.partial_results
          agents_completed := c.agents_completed
          interrupted_at := c.updated_at }

/-- Return value of `InterruptionManager.get_status_dict`: either the
literal idle dict or the full snapshot of the active context. -/
inductive StatusDict
  | idle
  | snapshot (task_id : Nat) (status : String) (query : String)
      (intent : String) (current_agent : Option String)
      (agents_completed : List String)
      (partial_results : List (String × String))
      (final_results : Option (List (String × String)))
      (created_at : Nat) (updated_at : Nat) (error : Option String)
deriving DecidableEq

/-- `InterruptionManager.get_status_dict(user_id)`. -/
def get_status_dict (s : ManagerState) (u : String) : StatusDict :=
  match dictGet? s.user_tasks u with
  | none => StatusDict.idle
  | some i =>
    match s.ctxs[i]? with
    | none => StatusDict.idle
    | some c =>
      StatusDict.snapshot c.task_id c.status.value c.query c.intent
        c.current_agent c.agents_completed c.partial_results c.final_results
        c.created_at c.updated_at c.error

/-- `InterruptionManager.get_task_context(user_id)`. -/
def get_task_context (s : ManagerState) (u : String) : Option TaskContext :=
  match dictGet? s.user_tasks u with
  | none => none
  | some i => s.ctxs[i]?

/-- One entry of the append-only partial-result log
(the dict appended by `StateStore.save_partial` in the source). -/
structure PartialEntry where
  data : String
  timestamp : Nat
  sequence : Nat
deriving DecidableEq

/-- Per-agent record inside a `StateStore` request slot (the source
initialises it as partials/cancelled/cancelled_at/metadata; the metadata
dict is kept as a string map). -/
structure AgentRecord where
  partials : List PartialEntry := []
  cancelled : Bool := false
  cancelled_at : Option Nat := none
  metadata : List (String × String) := []
deriving DecidableEq

/-- The `StateStore` class: request id → agent name → record, plus the
logical clock standing for `datetime.utcnow()`. -/
structure StateStore where
  store : List (String × List (String × AgentRecord)) := []
  clock : Nat := 0
deriving DecidableEq

/-- The partial-entry list for a (request, agent) pair, empty when either
key is absent. -/
def StateStore.partialsOf (st : StateStore) (request_id agent : String) :
    List PartialEntry :=
  ((dictGet? ((dictGet? st.store request_id).getD []) agent).getD {}).partials

/-- `StateStore.save_partial(request_id, agent, payload)`: initialise the
request and agent slots when missing, then append a timestamped entry whose
`sequence` is the number of entries already present for that pair. -/
def StateStore.savePartial (st : StateStore) (request_id agent : String)
    (payload : String) : StateStore :=
  let reqs := (dictGet? st.store request_id).getD []
  let rec0 := (dictGet? reqs agent).getD {}
  let entry : PartialEntry := {
    data := payload
    timestamp := st.clock
    sequence := rec0.partials.length }
  let rec1 := { rec0 with partials := rec0.partials ++ [entry] }
  { store := dictSet st.store request_id (dictSet reqs agent rec1)
    clock := st.clock + 1 }

/-- Iterated `StateStore.save_partial` for one (request, agent) pair,
used to speak about the n-th append. -/
def StateStore.saveMany (st : StateStore) (request_id agent : String) :
    List String → StateStore
  | [] => st
  | p :: ps => (st.savePartial request_id agent p).saveMany request_id agent ps

/-- `InterruptionManager._notify_status_change`: invoke every registered
callback in registration order with the post-mutation context, catching any
exception a callback raises and continuing with the rest.  A callback is a
function to `Except String Unit` (`Except.error` is a raised exception);
the returned list is the trace of the individual invocations, and the
function being total is the loop returning normally. -/
def notify_status_change : List (TaskContext → Except String Unit) →
    TaskContext → List (Except String Unit)
  | [], _ => []
  | cb :: rest, ctx => cb ctx :: notify_status_change rest ctx

/-- One mutating call on an `InterruptionManager` (the operations the rest
of the system invokes). -/
inductive Op
  | create (u q intent : String)
  | update (u : String) (st : TaskStatus) (current_agent : Option String)
      (partial_results : Option (List (String × String)))
      (error : Option String)
  | save (u agent results : String)
  | complete (u : String) (final : List (String × String)) (st : TaskStatus)
  | interrupt (u : String) (preserve : Bool)

/-- Apply one operation to the manager state. -/
def stepOp (s : ManagerState) : Op → ManagerState
  | Op.create u q intent => (create_task_context s u q intent).2
  | Op.update u st ca pr err => update_task_status s u st ca pr err
  | Op.save u agent results => save_partial_results s u agent results
  | Op.complete u final st => complete_task s u final st
  | Op.interrupt u preserve => interrupt_task s u preserve

/-- Run a list of operations from a state. -/
def runOps (s : ManagerState) (ops : List Op) : ManagerState :=
  ops.foldl stepOp s

/-- `c.task_id = n + position` for every context in the list: the heap
invariant that a cell's `task_id` equals its own index. -/
def idsFrom : Nat → List TaskContext → Bool
  | _, [] => true
  | n, c :: rest => c.task_id == n && idsFrom (n + 1) rest

/-- Decidable well-formedness of a manager state: active handles and
history handles point into the heap, and each heap cell's `task_id` is its
index (so ids of distinct cells differ, as for `uuid4`). -/
def wf (s : ManagerState) : Bool :=
  s.user_tasks.all (fun p => p.2 < s.ctxs.length) &&
  s.history.all (fun p => p.2.all (fun i => i < s.ctxs.length)) &&
  idsFrom 0 s.ctxs

/-- Decidable "handle `i` is not any user's active context". -/
def notActive (s : ManagerState) (i : Nat) : Bool :=
  s.user_tasks.all (fun p => ¬ p.2 = i)

/-- Decidable "every user's interruption history holds at most 5 entries". -/
def histBounded (s : ManagerState) : Bool :=
  s.history.all (fun pr => pr.2.length ≤ 5)

/-- A concrete context value used to exercise the callback fan-out. -/
def sampleCtx : TaskContext := {
  task_id := 0
  user_id := "u"
  query := "q"
  intent := ""
  status := TaskStatus.queued
  created_at := 0
  updated_at := 0 }

/-- A callback that returns normally. -/
def cbOk : TaskContext → Except String Unit := fun _ => Except.ok ()

/-- A callback that raises an exception. -/
def cbErr : TaskContext → Except String Unit := fun _ => Except.error "boom"

theorem dictGet?_dictSet_self {β : Type} (m : List (String × β)) (k : String)
    (v : β) : dictGet? (dictSet m k v) k = some v := by
  induction m with
  | nil => simp [dictSet, dictGet?]
  | cons hd tl ih =>
    obtain ⟨k0, v0⟩ := hd
    by_cases h : k0 = k
    · simp [dictSet, h, dictGet?]
    · simp [dictSet, h, dictGet?, ih]

theorem dictGet?_dictSet_ne {β : Type} (m : List (String × β)) (k k' : String)
    (v : β) (h : k' ≠ k) : dictGet? (dictSet m k v) k' = dictGet? m k' := by
  have hne : ¬ k = k' := fun e => h e.symm
  induction m with
  | nil => simp [dictSet, dictGet?, hne]
  | cons hd tl ih =>
    obtain ⟨k0, v0⟩ := hd
    by_cases h0 : k0 = k
    · subst h0
      simp [dictSet, dictGet?, hne]
    · simp [dictSet, h0, dictGet?, ih]

theorem all_dictGet? {β : Type} {p : String × β → Bool}
    {m : List (String × β)} {k : String} {v : β}
    (hm : m.all p = true) (h : dictGet? m k = some v) : p (k, v) = true := by
  induction m with
  | nil => simp [dictGet?] at h
  | cons hd tl ih =>
    obtain ⟨k0, v0⟩ := hd
    simp only [List.all_cons, Bool.and_eq_true] at hm
    by_cases h0 : k0 = k
    · subst h0
      simp [dictGet?] at h
      subst h
      exact hm.1
    · simp [dictGet?, h0] at h
      exact ih hm.2 h

theorem all_dictSet {β : Type} {p : String × β → Bool}
    {m : List (String × β)} {k : String} {v : β}
    (hm : m.all p = true) (hv : p (k, v) = true) :
    (dictSet m k v).all p = true := by
  induction m with
  | nil => simp [dictSet, hv]
  | cons hd tl ih =>
    obtain ⟨k0, v0⟩ := hd
    simp only [List.all_cons, Bool.and_eq_true] at hm
    by_cases h0 : k0 = k
    · simp [dictSet, h0, hv, hm.2]
    · simp [dictSet, h0, hm.1, ih hm.2]

theorem notActive_get? {s : ManagerState} {i : Nat} {u : String} {j : Nat}
    (h : notActive s i = true) (hj : dictGet? s.user_tasks u = some j) :
    j ≠ i := by
  have := all_dictGet? h hj
  simpa using this

theorem idsFrom_get? {l : List TaskContext} :
    ∀ {n j : Nat} {c : TaskContext}, idsFrom n l = true →
    l[j]? = some c → c.task_id = n + j := by
  induction l with
  | nil => intro n j c _ h; simp at h
  | cons hd tl ih =>
    intro n j c hids h
    simp only [idsFrom, Bool.and_eq_true, beq_iff_eq] at hids
    cases j with
    | zero =>
      simp [List.getElem?_cons_zero] at h
      subst h
      simpa using hids.1
    | succ j' =>
      simp only [List.getElem?_cons_succ] at h
      have := ih hids.2 h
      omega

theorem idsFrom_set {l : List TaskContext} :
    ∀ {n j : Nat} {c d : TaskContext}, idsFrom n l = true →
    l[j]? = some d → c.task_id = d.task_id →
    idsFrom n (l.set j c) = true := by
  induction l with
  | nil => intro n j c d h _ _; simpa [List.set] using h
  | cons hd tl ih =>
    intro n j c d hids hget hid
    simp only [idsFrom, Bool.and_eq_true, beq_iff_eq] at hids
    cases j with
    | zero =>
      simp [List.getElem?_cons_zero] at hget
      subst hget
      simp [List.set, idsFrom, hid, hids.1, hids.2]
    | succ j' =>
      simp only [List.getElem?_cons_succ] at hget
      simp [List.set, idsFrom, hids.1, ih hids.2 hget hid]

theorem all_tail {α : Type} {p : α → Bool} {l : List α}
    (h : l.all p = true) : l.tail.all p = true := by
  cases l with
  | nil => simp
  | cons a t =>
    simp only [List.all_cons, Bool.and_eq_true] at h
    simpa using h.2

theorem getElem?_lt {α : Type} {l : List α} {i : Nat} {a : α}
    (h : l[i]? = some a) : i < l.length := by
  by_contra hn
  push_neg at hn
  rw [List.getElem?_eq_none hn] at h
  exact Option.noConfusion h

theorem idsFrom_append {l : List TaskContext} :
    ∀ {n : Nat} {c : TaskContext}, idsFrom n l = true →
    c.task_id = n + l.length → idsFrom n (l ++ [c]) = true := by
  induction l with
  | nil => intro n c _ hc; simp [idsFrom, hc]
  | cons hd tl ih =>
    intro n c hids hc
    simp only [idsFrom, Bool.and_eq_true, beq_iff_eq] at hids
    have : c.task_id = (n + 1) + tl.length := by
      simp [List.length] at hc
      omega
    simp [idsFrom, hids.1, ih hids.2 this]


theorem interrupt_frame {s : ManagerState} {u : String} {p : Bool} {i : Nat}
    (hna : notActive s i = true) :
    (interrupt_task_internal s u p).ctxs[i]? = s.ctxs[i]? ∧
    (interrupt_task_internal s u p).user_tasks = s.user_tasks ∧
    (interrupt_task_internal s u p).ctxs.length = s.ctxs.length := by
  cases hj : dictGet? s.user_tasks u with
  | none => simp [interrupt_task_internal, hj]
  | some j =>
    cases hc : s.ctxs[j]? with
    | none => simp [interrupt_task_internal, hj, hc]
    | some ctx =>
      have hji : j ≠ i := notActive_get? hna hj
      simp only [interrupt_task_internal, hj, hc]
      exact ⟨List.getElem?_set_ne hji, by trivial, by simp⟩

theorem update_frame {s : ManagerState} {u : String} {st : TaskStatus}
    {ca : Option String} {pr : Option (List (String × String))}
    {err : Option String} {i : Nat} (hna : notActive s i = true) :
    (update_task_status s u st ca pr err).ctxs[i]? = s.ctxs[i]? ∧
    (update_task_status s u st ca pr err).user_tasks = s.user_tasks ∧
    (update_task_status s u st ca pr err).ctxs.length = s.ctxs.length := by
  cases hj : dictGet? s.user_tasks u with
  | none => simp [update_task_status, hj]
  | some j =>
    cases hc : s.ctxs[j]? with
    | none => simp [update_task_status, hj, hc]
    | some ctx =>
      have hji : j ≠ i := notActive_get? hna hj
      simp only [update_task_status, hj, hc]
      exact ⟨List.getElem?_set_ne hji, by trivial, by simp⟩

theorem save_frame {s : ManagerState} {u agent res : String} {i : Nat}
    (hna : notActive s i = true) :
    (save_partial_results s u agent res).ctxs[i]? = s.ctxs[i]? ∧
    (save_partial_results s u agent res).user_tasks = s.user_tasks ∧
    (save_partial_results s u agent res).ctxs.length = s.ctxs.length := by
  cases hj : dictGet? s.user_tasks u with
  | none => simp [save_partial_results, hj]
  | some j =>
    cases hc : s.ctxs[j]? with
    | none => simp [save_partial_results, hj, hc]
    | some ctx =>
      have hji : j ≠ i := notActive_get? hna hj
      simp only [save_partial_results, hj, hc]
      exact ⟨List.getElem?_set_ne hji, by trivial, by simp⟩

theorem complete_frame {s : ManagerState} {u : String}
    {final : List (String × String)} {st : TaskStatus} {i : Nat}
    (hna : notActive s i = true) :
    (complete_task s u final st).ctxs[i]? = s.ctxs[i]? ∧
    (complete_task s u final st).user_tasks = s.user_tasks ∧
    (complete_task s u final st).ctxs.length = s.ctxs.length := by
  cases hj : dictGet? s.user_tasks u with
  | none => simp [complete_task, hj]
  | some j =>
    cases hc : s.ctxs[j]? with
    | none => simp [complete_task, hj, hc]
    | some ctx =>
      have hji : j ≠ i := notActive_get? hna hj
      simp only [complete_task, hj, hc]
      exact ⟨List.getElem?_set_ne hji, by trivial, by simp⟩

theorem notActive_of_user_tasks_eq {s s' : ManagerState} {i : Nat}
    (h : s'.user_tasks = s.user_tasks) (hna : notActive s i = true) :
    notActive s' i = true := by
  unfold notActive at hna ⊢
  rw [h]
  exact hna

theorem create_frame {s : ManagerState} {u q n : String} {i : Nat}
    (hlen : i < s.ctxs.length) (hna : notActive s i = true) :
    (create_task_context s u q n).2.ctxs[i]? = s.ctxs[i]? ∧
    notActive (create_task_context s u q n).2 i = true ∧
    i < (create_task_context s u q n).2.ctxs.length := by
  by_cases hact : (dictGet? s.user_tasks u).isSome
  · have hf := interrupt_frame (s := s) (u := u) (p := true) (i := i) hna
    have hlen1 : i < (interrupt_task_internal s u true).ctxs.length := by
      rw [hf.2.2]; exact hlen
    have hne : ¬ ((interrupt_task_internal s u true).ctxs.length = i) := by
      omega
    simp only [create_task_context, hact, if_true]
    refine ⟨?_, ?_, ?_⟩
    · rw [List.getElem?_append_left hlen1]
      exact hf.1
    · unfold notActive
      exact all_dictSet (by rw [hf.2.1]; exact hna) (by simpa using hne)
    · simp only [List.length_append, List.length_cons, List.length_nil]
      omega
  · have hne : ¬ (s.ctxs.length = i) := by omega
    simp only [create_task_context, hact, if_false, Bool.false_eq_true]
    refine ⟨?_, ?_, ?_⟩
    · exact List.getElem?_append_left hlen
    · unfold notActive
      exact all_dictSet hna (by simpa using hne)
    · simp only [List.length_append, List.length_cons, List.length_nil]
      omega

theorem stepOp_frame {s : ManagerState} {i : Nat} (op : Op)
    (hlen : i < s.ctxs.length) (hna : notActive s i = true) :
    (stepOp s op).ctxs[i]? = s.ctxs[i]? ∧
    notActive (stepOp s op) i = true ∧
    i < (stepOp s op).ctxs.length := by
  cases op with
  | create u q n =>
    simp only [stepOp]
    exact create_frame hlen hna
  | update u st ca pr err =>
    have h := @update_frame s u st ca pr err i hna
    simp only [stepOp]
    exact ⟨h.1, notActive_of_user_tasks_eq h.2.1 hna, by rw [h.2.2]; exact hlen⟩
  | save u agent res =>
    have h := @save_frame s u agent res i hna
    simp only [stepOp]
    exact ⟨h.1, notActive_of_user_tasks_eq h.2.1 hna, by rw [h.2.2]; exact hlen⟩
  | complete u final st =>
    have h := @complete_frame s u final st i hna
    simp only [stepOp]
    exact ⟨h.1, notActive_of_user_tasks_eq h.2.1 hna, by rw [h.2.2]; exact hlen⟩
  | interrupt u p =>
    have h := interrupt_frame (s := s) (u := u) (p := p) (i := i) hna
    simp only [stepOp, interrupt_task]
    exact ⟨h.1, notActive_of_user_tasks_eq h.2.1 hna, by rw [h.2.2]; exact hlen⟩

theorem runOps_frame {ops : List Op} :
    ∀ {s : ManagerState} {i : Nat}, i < s.ctxs.length →
    notActive s i = true → (runOps s ops).ctxs[i]? = s.ctxs[i]? := by
  induction ops with
  | nil => intro s i _ _; rfl
  | cons op rest ih =>
    intro s i hlen hna
    have h := stepOp_frame (s := s) (i := i) op hlen hna
    calc (runOps s (op :: rest)).ctxs[i]?
        = (runOps (stepOp s op) rest).ctxs[i]? := rfl
      _ = (stepOp s op).ctxs[i]? := ih h.2.2 h.2.1
      _ = s.ctxs[i]? := h.1

theorem all_mono {α : Type} {p q : α → Bool}
    (hpq : ∀ a, p a = true → q a = true) {l : List α}
    (h : l.all p = true) : l.all q = true := by
  simp only [List.all_eq_true] at h ⊢
  exact fun a ha => hpq a (h a ha)

theorem histOf_all_lt {s : ManagerState}
    (h2 : s.history.all (fun pr => pr.2.all (fun k => k < s.ctxs.length)) = true)
    (u : String) : (histOf s u).all (fun k => k < s.ctxs.length) = true := by
  unfold histOf
  cases hh : dictGet? s.history u with
  | none => simp
  | some l => simpa using all_dictGet? h2 hh

theorem wf_interrupt {s : ManagerState} {u : String} {pv : Bool}
    (h : wf s = true) : wf (interrupt_task_internal s u pv) = true := by
  simp only [wf, Bool.and_eq_true] at h
  obtain ⟨⟨h1, h2⟩, h3⟩ := h
  cases hj : dictGet? s.user_tasks u with
  | none => simp [interrupt_task_internal, hj, wf, h1, h2, h3]
  | some j =>
    cases hc : s.ctxs[j]? with
    | none => simp [interrupt_task_internal, hj, hc, wf, h1, h2, h3]
    | some ctx =>
      have hjlen : j < s.ctxs.length := getElem?_lt hc
      simp only [interrupt_task_internal, hj, hc, wf, Bool.and_eq_true]
      refine ⟨⟨?_, ?_⟩, ?_⟩
      · simpa using h1
      · cases pv with
        | false => simpa using h2
        | true =>
          have hfull : (histOf s u ++ [j]).all
              (fun k => k < s.ctxs.length) = true := by
            simp [List.all_append, histOf_all_lt h2 u, hjlen]
          have hv : (if 5 < (histOf s u ++ [j]).length
              then (histOf s u ++ [j]).tail
              else histOf s u ++ [j]).all (fun k => k < s.ctxs.length) = true := by
            split
            · exact all_tail hfull
            · exact hfull
          simp only [List.length_set, if_true]
          exact all_dictSet (by simpa using h2) (by simpa using hv)
      · exact idsFrom_set h3 hc rfl

theorem wf_create_aux {s1 : ManagerState} {u : String} {c : TaskContext}
    (hw : wf s1 = true) (hcid : c.task_id = s1.ctxs.length) :
    wf { s1 with
      ctxs := s1.ctxs ++ [c]
      user_tasks := dictSet s1.user_tasks u s1.ctxs.length
      clock := s1.clock + 1 } = true := by
  simp only [wf, Bool.and_eq_true] at hw
  obtain ⟨⟨h1, h2⟩, h3⟩ := hw
  simp only [wf, Bool.and_eq_true]
  refine ⟨⟨?_, ?_⟩, ?_⟩
  · refine all_dictSet (all_mono ?_ h1) ?_
    · intro a ha
      simp only [decide_eq_true_eq] at ha ⊢
      simp only [List.length_append, List.length_cons, List.length_nil]
      omega
    · simp only [decide_eq_true_eq]
      simp only [List.length_append, List.length_cons, List.length_nil]
      omega
  · refine all_mono ?_ h2
    intro a ha
    refine all_mono ?_ ha
    intro k hk
    simp only [decide_eq_true_eq] at hk ⊢
    simp only [List.length_append, List.length_cons, List.length_nil]
    omega
  · exact idsFrom_append h3 (by simpa using hcid)

theorem wf_create {s : ManagerState} {u q n : String}
    (h : wf s = true) : wf (create_task_context s u q n).2 = true := by
  by_cases hact : (dictGet? s.user_tasks u).isSome
  · simp only [create_task_context, hact, if_true]
    exact wf_create_aux (wf_interrupt h) rfl
  · simp only [create_task_context, hact, if_false, Bool.false_eq_true]
    exact wf_create_aux h rfl

theorem histLen_le_of_histBounded {s : ManagerState} {u : String}
    (h : histBounded s = true) : (histOf s u).length ≤ 5 := by
  unfold histOf
  cases hh : dictGet? s.history u with
  | none => simp
  | some l =>
    have := all_dictGet? h hh
    simpa using this

theorem histBounded_interrupt {s : ManagerState} {u : String} {pv : Bool}
    (h : histBounded s = true) :
    histBounded (interrupt_task_internal s u pv) = true := by
  cases hj : dictGet? s.user_tasks u with
  | none => simpa [interrupt_task_internal, hj, histBounded] using h
  | some j =>
    cases hc : s.ctxs[j]? with
    | none => simpa [interrupt_task_internal, hj, hc, histBounded] using h
    | some ctx =>
      have hlen : (histOf s u).length ≤ 5 := histLen_le_of_histBounded h
      simp only [interrupt_task_internal, hj, hc, histBounded]
      cases pv with
      | false => simpa [histBounded] using h
      | true =>
        simp only [if_true]
        refine all_dictSet (by simpa [histBounded] using h) ?_
        simp only [decide_eq_true_eq]
        split
        · simp only [List.length_tail, List.length_append, List.length_cons,
            List.length_nil]
          omega
        · rename_i hsp
          simp only [List.length_append, List.length_cons, List.length_nil] at hsp ⊢
          omega

theorem histBounded_stepOp {s : ManagerState} (op : Op)
    (h : histBounded s = true) : histBounded (stepOp s op) = true := by
  cases op with
  | create u q n =>
    simp only [stepOp]
    by_cases hact : (dictGet? s.user_tasks u).isSome
    · simp only [create_task_context, hact, if_true]
      exact histBounded_interrupt h
    · simp only [create_task_context, hact, if_false, Bool.false_eq_true]
      exact h
  | update u st ca pr err =>
    simp only [stepOp]
    cases hj : dictGet? s.user_tasks u with
    | none => simpa [update_task_status, hj, histBounded] using h
    | some j =>
      cases hc : s.ctxs[j]? with
      | none => simpa [update_task_status, hj, hc, histBounded] using h
      | some ctx =>
        simp only [update_task_status, hj, hc, histBounded]
        exact h
  | save u agent res =>
    simp only [stepOp]
    cases hj : dictGet? s.user_tasks u with
    | none => simpa [save_partial_results, hj, histBounded] using h
    | some j =>
      cases hc : s.ctxs[j]? with
      | none => simpa [save_partial_results, hj, hc, histBounded] using h
      | some ctx =>
        simp only [save_partial_results, hj, hc, histBounded]
        exact h
  | complete u final st =>
    simp only [stepOp]
    cases hj : dictGet? s.user_tasks u with
    | none => simpa [complete_task, hj, histBounded] using h
    | some j =>
      cases hc : s.ctxs[j]? with
      | none => simpa [complete_task, hj, hc, histBounded] using h
      | some ctx =>
        simp only [complete_task, hj, hc, histBounded]
        exact h
  | interrupt u pv =>
    simp only [stepOp, interrupt_task]
    exact histBounded_interrupt h

theorem histBounded_runOps {ops : List Op} :
    ∀ {s : ManagerState}, histBounded s = true →
    histBounded (runOps s ops) = true := by
  induction ops with
  | nil => intro s h; exact h
  | cons op rest ih =>
    intro s h
    exact ih (histBounded_stepOp op h)

theorem create_eq {s sA : ManagerState} {u q n : String}
    (hA : sA = if (dictGet? s.user_tasks u).isSome
               then interrupt_task_internal s u true else s) :
    create_task_context s u q n =
      ({ task_id := sA.ctxs.length, user_id := u, query := q, intent := n,
         status := TaskStatus.queued, created_at := sA.clock,
         updated_at := sA.clock },
       { sA with
         ctxs := sA.ctxs ++
           [{ task_id := sA.ctxs.length, user_id := u, query := q,
              intent := n, status := TaskStatus.queued,
              created_at := sA.clock, updated_at := sA.clock }],
         user_tasks := dictSet sA.user_tasks u sA.ctxs.length,
         clock := sA.clock + 1 }) := by
  subst hA
  rfl

theorem interrupt_active {s : ManagerState} {u : String} {i : Nat}
    {ctx : TaskContext} {b : Bool}
    (h1 : dictGet? s.user_tasks u = some i) (h2 : s.ctxs[i]? = some ctx) :
    (interrupt_task_internal s u b).ctxs[i]? =
      some { ctx with cancel_event := true,
                      status := TaskStatus.interrupted,
                      updated_at := s.clock } ∧
    (interrupt_task_internal s u b).user_tasks = s.user_tasks ∧
    (interrupt_task_internal s u b).clock = s.clock + 1 ∧
    (interrupt_task_internal s u b).history =
      (if b then dictSet s.history u
        (if 5 < (histOf s u ++ [i]).length then (histOf s u ++ [i]).tail
         else histOf s u ++ [i]) else s.history) ∧
    (interrupt_task_internal s u b).ctxs.length = s.ctxs.length ∧
    (∀ j, j ≠ i → (interrupt_task_internal s u b).ctxs[j]? = s.ctxs[j]?) := by
  have hlt : i < s.ctxs.length := getElem?_lt h2
  simp only [interrupt_task_internal, h1, h2]
  refine ⟨List.getElem?_set_self hlt, by trivial, by trivial, by trivial,
    by simp, ?_⟩
  intro j hj
  exact List.getElem?_set_ne (fun e => hj e.symm)

theorem mem_ring_append {h : List Nat} {i : Nat} :
    i ∈ (if 5 < (h ++ [i]).length then (h ++ [i]).tail else h ++ [i]) := by
  cases h with
  | nil => simp
  | cons a t =>
    split
    · simp
    · simp

/-- Claim C8: for a user with no active context, every mutating call
(`update_task_status`, `save_partial_results`, `complete_task`,
`interrupt_task`) returns without error and leaves the manager state
unchanged, and `get_status_dict` returns exactly the idle dict; when a
context exists, `get_status_dict` returns the full snapshot of its
task_id, status value, query, intent, current_agent, agents_completed,
partial_results, final_results, created_at, updated_at and error. -/
theorem c8_no_active_task_noops :
    (∀ (s : ManagerState) (u : String), dictGet? s.user_tasks u = none →
      (∀ (st : TaskStatus) (ca : Option String)
          (pr : Option (List (String × String))) (err : Option String),
          update_task_status s u st ca pr err = s) ∧
      (∀ (agent res : String), save_partial_results s u agent res = s) ∧
      (∀ (final : List (String × String)) (st : TaskStatus),
          complete_task s u final st = s) ∧
      (∀ (pv : Bool), interrupt_task s u pv = s) ∧
      get_status_dict s u = StatusDict.idle) ∧
    (∀ (s : ManagerState) (u : String) (i : Nat) (ctx : TaskContext),
      dictGet? s.user_tasks u = some i → s.ctxs[i]? = some ctx →
      get_status_dict s u = StatusDict.snapshot ctx.task_id ctx.status.value
        ctx.query ctx.intent ctx.current_agent ctx.agents_completed
        ctx.partial_results ctx.final_results ctx.created_at ctx.updated_at
        ctx.error) := by
  constructor
  · intro s u h
    refine ⟨?_, ?_, ?_, ?_, ?_⟩
    · intro st ca pr err
      simp [update_task_status, h]
    · intro agent res
      simp [save_partial_results, h]
    · intro final st
      simp [complete_task, h]
    · intro pv
      simp [interrupt_task, interrupt_task_internal, h]
    · simp [get_status_dict, h]
  · intro s u i ctx h1 h2
    simp [get_status_dict, h1, h2]

/-- Witness for C8 at concrete inputs: the fresh manager has no active
context for "u", so mutations are identity and the status dict is idle;
after one `create_task_context` the snapshot is reported. -/
theorem c8_witness :
    update_task_status initState "u" TaskStatus.running none none none =
      initState ∧
    get_status_dict initState "u" = StatusDict.idle ∧
    get_status_dict (create_task_context initState "u" "q" "").2 "u" =
      StatusDict.snapshot 0 "queued" "q" "" none [] [] none 0 0 none :=
  ⟨(c8_no_active_task_noops.1 initState "u" rfl).1 TaskStatus.running none
      none none,
   (c8_no_active_task_noops.1 initState "u" rfl).2.2.2.2,
   c8_no_active_task_noops.2 (create_task_context initState "u" "q" "").2 "u" 0
     { task_id := 0, user_id := "u", query := "q", intent := "",
       status := TaskStatus.queued, created_at := 0, updated_at := 0 }
     (by decide) (by decide)⟩

/-- Claim C9: the status-change fan-out invokes every registered callback,
in registration order, with the post-mutation context; a callback that
raises is caught and does not prevent the remaining callbacks from being
invoked nor the fan-out (and hence the triggering mutation) from returning
normally. -/
theorem c9_callback_isolation :
    (∀ (cbs : List (TaskContext → Except String Unit)) (ctx : TaskContext),
      (notify_status_change cbs ctx).length = cbs.length ∧
      ∀ (k : Nat) (hk : k < cbs.length),
        (notify_status_change cbs ctx)[k]? = some ((cbs.get ⟨k, hk⟩) ctx)) ∧
    (∀ (pre post : List (TaskContext → Except String Unit))
        (cb : TaskContext → Except String Unit) (ctx : TaskContext)
        (e : String), cb ctx = Except.error e →
      notify_status_change (pre ++ cb :: post) ctx =
        notify_status_change pre ctx ++
          Except.error e :: notify_status_change post ctx) := by
  constructor
  · intro cbs ctx
    constructor
    · induction cbs with
      | nil => rfl
      | cons hd tl ih => simp [notify_status_change, ih]
    · induction cbs with
      | nil =>
        intro k hk
        simp at hk
      | cons hd tl ih =>
        intro k hk
        cases k with
        | zero => simp [notify_status_change]
        | succ k' =>
          simp only [notify_status_change, List.getElem?_cons_succ]
          exact ih k' (by simpa using hk)
  · intro pre post cb ctx e he
    induction pre with
    | nil => simp [notify_status_change, he]
    | cons hd tl ih => simp [notify_status_change, ih]

/-- Witness for C9 at concrete inputs: with a raising callback between two
normal ones, all three are invoked in order and the raising one's error is
confined to its own slot. -/
theorem c9_witness :
    notify_status_change ([cbOk] ++ cbErr :: [cbOk]) sampleCtx =
      notify_status_change [cbOk] sampleCtx ++
        Except.error "boom" :: notify_status_change [cbOk] sampleCtx ∧
    (notify_status_change [cbOk, cbErr, cbOk] sampleCtx).length = 3 ∧
    (notify_status_change [cbOk, cbErr, cbOk] sampleCtx)[1]? =
      some (([cbOk, cbErr, cbOk].get ⟨1, by decide⟩) sampleCtx) :=
  ⟨c9_callback_isolation.2 [cbOk] [cbOk] cbErr sampleCtx "boom" rfl,
   (c9_callback_isolation.1 [cbOk, cbErr, cbOk] sampleCtx).1,
   (c9_callback_isolation.1 [cbOk, cbErr, cbOk] sampleCtx).2 1 (by decide)⟩

theorem applyStatusUpdate_agents (ctx : TaskContext) (st : TaskStatus)
    (ca : Option String) (pr : Option (List (String × String)))
    (err : Option String) (now : Nat) :
    (applyStatusUpdate ctx st ca pr err now).agents_completed =
      ctx.agents_completed := by
  simp only [applyStatusUpdate]
  repeat' split
  all_goals simp_all

/-- Claim C4 (refuted by the code, supporting a code-bug verdict): the
source intends to append the previously stored current_agent to
agents_completed when the agent changes, but it assigns
`context.current_agent = current_agent` before comparing the two, so the
comparison is always false and `update_task_status` never modifies
`agents_completed` of any context; in particular, at the claim's scenario
(active agent "flight_agent", update to "hotel_agent") the list stays
empty even though the agent changed. -/
theorem c4_update_never_records_previous_agent :
    (∀ (s : ManagerState) (u : String) (st : TaskStatus)
        (ca : Option String) (pr : Option (List (String × String)))
        (err : Option String) (j : Nat),
      ((update_task_status s u st ca pr err).ctxs[j]?).map
          TaskContext.agents_completed =
        (s.ctxs[j]?).map TaskContext.agents_completed) ∧
    (((runOps initState
        [Op.create "u" "flights" "",
         Op.update "u" TaskStatus.running (some "flight_agent") none none,
         Op.update "u" TaskStatus.running (some "hotel_agent") none
           none]).ctxs[0]?).map TaskContext.agents_completed = some [] ∧
     ((runOps initState
        [Op.create "u" "flights" "",
         Op.update "u" TaskStatus.running (some "flight_agent") none none,
         Op.update "u" TaskStatus.running (some "hotel_agent") none
           none]).ctxs[0]?).map TaskContext.current_agent =
       some (some "hotel_agent")) := by
  constructor
  · intro s u st ca pr err j
    cases hj : dictGet? s.user_tasks u with
    | none => simp [update_task_status, hj]
    | some i =>
      cases hc : s.ctxs[i]? with
      | none => simp [update_task_status, hj, hc]
      | some ctx =>
        simp only [update_task_status, hj, hc]
        by_cases hij : j = i
        · subst hij
          rw [List.getElem?_set_self (getElem?_lt hc), hc]
          simp [applyStatusUpdate_agents]
        · rw [List.getElem?_set_ne (fun e => hij e.symm)]
  · constructor
    · decide
    · decide

/-- Counterexample to claim C2: terminal statuses are not immutable.  After
create_task_context and complete_task the context (handle 0) is COMPLETED,
yet a superseding create_task_context for the same user marks that very
context INTERRUPTED and places it in the interruption history. -/
theorem c2_counterexample :
    ((runOps initState [Op.create "u" "q1" "",
        Op.complete "u" [("r", "ok")] TaskStatus.completed]).ctxs[0]?).map
      TaskContext.status = some TaskStatus.completed ∧
    ((runOps initState [Op.create "u" "q1" "",
        Op.complete "u" [("r", "ok")] TaskStatus.completed,
        Op.create "u" "q2" ""]).ctxs[0]?).map TaskContext.status =
      some TaskStatus.interrupted ∧
    0 ∈ histOf (runOps initState [Op.create "u" "q1" "",
        Op.complete "u" [("r", "ok")] TaskStatus.completed,
        Op.create "u" "q2" ""]) "u" :=
  ⟨by decide, by decide, by decide⟩

/-- Claim C2 amended: a context's status is frozen only once the context is
no longer installed as any user's active context (i.e. once it has been
superseded); from then on no operation sequence changes its heap cell at
all.  While it is still the active context, even a terminal status can be
overwritten — in particular a COMPLETED context is marked INTERRUPTED and
moved into the history by a superseding create_task_context (see the
counterexample). -/
theorem c2_superseded_context_frozen (s : ManagerState) (i : Nat)
    (ops : List Op) (hlen : i < s.ctxs.length)
    (hna : notActive s i = true) :
    (runOps s ops).ctxs[i]? = s.ctxs[i]? :=
  runOps_frame hlen hna

/-- Witness for C2's amended theorem: after a supersession, handle 0 is no
longer active, and a further update/interrupt/complete sequence leaves its
cell untouched. -/
theorem c2_witness :
    0 < (runOps initState [Op.create "u" "q1" "",
      Op.create "u" "q2" ""]).ctxs.length ∧
    notActive (runOps initState [Op.create "u" "q1" "",
      Op.create "u" "q2" ""]) 0 = true ∧
    (runOps (runOps initState [Op.create "u" "q1" "", Op.create "u" "q2" ""])
        [Op.update "u" TaskStatus.running (some "flight_agent") none none,
         Op.interrupt "u" true,
         Op.complete "u" [("r", "ok")] TaskStatus.completed]).ctxs[0]? =
      (runOps initState [Op.create "u" "q1" "",
        Op.create "u" "q2" ""]).ctxs[0]? :=
  ⟨by decide, by decide,
   c2_superseded_context_frozen
     (runOps initState [Op.create "u" "q1" "", Op.create "u" "q2" ""]) 0
     [Op.update "u" TaskStatus.running (some "flight_agent") none none,
      Op.interrupt "u" true,
      Op.complete "u" [("r", "ok")] TaskStatus.completed]
     (by decide) (by decide)⟩

/-- Counterexample to claim C5: interrupt_task is not idempotent.  After a
create and one interrupt_task the history of "u" holds one entry; the
second consecutive interrupt_task appends a duplicate entry (length 2). -/
theorem c5_counterexample :
    (histOf (interrupt_task (runOps initState [Op.create "u" "q" ""])
        "u" true) "u").length = 1 ∧
    (histOf (interrupt_task (interrupt_task
        (runOps initState [Op.create "u" "q" ""]) "u" true) "u" true)
        "u").length = 2 :=
  ⟨by decide, by decide⟩

/-- Claim C5 amended: for a user with an active context, the second of two
consecutive interrupt_task calls leaves the status (INTERRUPTED) and the
cancellation flag exactly as the first call left them, but it is not a
no-op: it refreshes the context's updated_at and appends a duplicate handle
of the same context to the user's history (stated for histories short
enough that the 5-entry ring does not evict). -/
theorem c5_second_interrupt_duplicates_history (s : ManagerState)
    (u : String) (i : Nat) (ctx : TaskContext)
    (h1 : dictGet? s.user_tasks u = some i) (h2 : s.ctxs[i]? = some ctx)
    (h3 : (histOf s u).length ≤ 3) :
    (interrupt_task s u true).ctxs[i]? =
      some { ctx with cancel_event := true,
                      status := TaskStatus.interrupted,
                      updated_at := s.clock } ∧
    histOf (interrupt_task s u true) u = histOf s u ++ [i] ∧
    (interrupt_task (interrupt_task s u true) u true).ctxs[i]? =
      some { ctx with cancel_event := true,
                      status := TaskStatus.interrupted,
                      updated_at := s.clock + 1 } ∧
    histOf (interrupt_task (interrupt_task s u true) u true) u =
      histOf s u ++ [i, i] := by
  obtain ⟨hset, hut, hclk, hhist, hlen, hframe⟩ :=
    interrupt_active (b := true) h1 h2
  simp only [interrupt_task]
  have hnotail : ¬ 5 < (histOf s u).length + 1 := by omega
  have hh1 : (interrupt_task_internal s u true).history =
      dictSet s.history u (histOf s u ++ [i]) := by
    rw [hhist]
    simp [hnotail]
  have hhist1 : histOf (interrupt_task_internal s u true) u =
      histOf s u ++ [i] := by
    unfold histOf
    rw [hh1, dictGet?_dictSet_self]
    rfl
  have h1' : dictGet? (interrupt_task_internal s u true).user_tasks u =
      some i := by
    rw [hut]
    exact h1
  obtain ⟨hset2, hut2, hclk2, hhist2, hlen2, hframe2⟩ :=
    interrupt_active (b := true) h1' hset
  refine ⟨hset, hhist1, ?_, ?_⟩
  · rw [hclk] at hset2
    exact hset2
  · have hnotail2 : ¬ 5 < (histOf s u).length + 1 + 1 := by omega
    have hh2 : (interrupt_task_internal (interrupt_task_internal s u true) u
        true).history =
        dictSet (interrupt_task_internal s u true).history u
          (histOf (interrupt_task_internal s u true) u ++ [i]) := by
      rw [hhist2]
      simp [hhist1, hnotail2]
    unfold histOf
    rw [hh2, dictGet?_dictSet_self, hhist1]
    simp [histOf]

/-- Witness for C5's theorems at a concrete input: one create, then two
interrupts; the duplicate history entry and refreshed updated_at are
visible. -/
theorem c5_witness :
    (interrupt_task (runOps initState [Op.create "u" "q" ""]) "u"
        true).ctxs[0]? =
      some { task_id := 0, user_id := "u", query := "q", intent := "",
             status := TaskStatus.interrupted, created_at := 0,
             updated_at := 1, cancel_event := true } ∧
    histOf (interrupt_task (runOps initState [Op.create "u" "q" ""])
        "u" true) "u" = [0] ∧
    (interrupt_task (interrupt_task
        (runOps initState [Op.create "u" "q" ""]) "u" true) "u"
        true).ctxs[0]? =
      some { task_id := 0, user_id := "u", query := "q", intent := "",
             status := TaskStatus.interrupted, created_at := 0,
             updated_at := 2, cancel_event := true } ∧
    histOf (interrupt_task (interrupt_task
        (runOps initState [Op.create "u" "q" ""]) "u" true) "u" true) "u" =
      [0, 0] :=
  c5_second_interrupt_duplicates_history
    (runOps initState [Op.create "u" "q" ""]) "u" 0
    { task_id := 0, user_id := "u", query := "q", intent := "",
      status := TaskStatus.queued, created_at := 0, updated_at := 0 }
    (by decide) (by decide) (by decide)

/-- Counterexample to claim C10: interrupt_task with preserve_context=False
does not always leave get_previous_context unchanged.  When the active
context is already a history entry (after a previous preserving interrupt),
the non-preserving interrupt mutates that aliased context's updated_at, so
the snapshot returned by get_previous_context (its interrupted_at field)
differs before and after the call even though the history list itself was
not touched. -/
theorem c10_counterexample :
    dictGet? (interrupt_task (runOps initState [Op.create "u" "q" ""]) "u"
        true).user_tasks "u" = some 0 ∧
    get_previous_context (interrupt_task (runOps initState
        [Op.create "u" "q" ""]) "u" true) "u" "x" ≠
      get_previous_context (interrupt_task (interrupt_task (runOps initState
        [Op.create "u" "q" ""]) "u" true) "u" false) "u" "x" :=
  ⟨by decide, by decide⟩

/-- Claim C10 amended: interrupt_task(u, preserve_context=False) signals
the active context's cancellation event and sets its status to INTERRUPTED
while leaving the history map of every user untouched; and provided the
active context is not itself aliased into u's history (it was not already
interrupted with preservation), get_previous_context(u, q) returns the same
snapshot before and after the call for every q. -/
theorem c10_interrupt_no_preserve_frame (s : ManagerState) (u : String)
    (i : Nat) (ctx : TaskContext)
    (h1 : dictGet? s.user_tasks u = some i) (h2 : s.ctxs[i]? = some ctx)
    (h3 : (histOf s u).contains i = false) :
    (interrupt_task s u false).ctxs[i]? =
      some { ctx with cancel_event := true,
                      status := TaskStatus.interrupted,
                      updated_at := s.clock } ∧
    (interrupt_task s u false).history = s.history ∧
    ∀ q, get_previous_context (interrupt_task s u false) u q =
      get_previous_context s u q := by
  obtain ⟨hset, hut, hclk, hhist, hlen, hframe⟩ :=
    interrupt_active (b := false) h1 h2
  simp only [interrupt_task]
  have hhist' : (interrupt_task_internal s u false).history = s.history := by
    simpa using hhist
  refine ⟨hset, hhist', ?_⟩
  intro q
  cases hh : dictGet? s.history u with
  | none => simp [get_previous_context, hhist', hh]
  | some hist =>
    cases hl : hist.getLast? with
    | none => simp [get_previous_context, hhist', hh, hl]
    | some j =>
      have hj : j ∈ hist :=
        List.mem_of_mem_getLast? (Option.mem_def.mpr hl)
      have hji : j ≠ i := by
        intro e
        subst e
        have hcon : (histOf s u).contains j = true := by
          unfold histOf
          rw [hh]
          simpa using hj
        rw [hcon] at h3
        exact Bool.noConfusion h3
      simp only [get_previous_context, hhist', hh, hl]
      rw [hframe j hji]

/-- Witness for C10's amended theorem: directly after a create (history
empty, so the active handle is not aliased into it), the non-preserving
interrupt changes neither the history nor get_previous_context. -/
theorem c10_witness :
    (interrupt_task (create_task_context initState "u" "q" "").2 "u"
        false).ctxs[0]? =
      some { task_id := 0, user_id := "u", query := "q", intent := "",
             status := TaskStatus.interrupted, created_at := 0,
             updated_at := 1, cancel_event := true } ∧
    (interrupt_task (create_task_context initState "u" "q" "").2 "u"
        false).history =
      (create_task_context initState "u" "q" "").2.history ∧
    ∀ q, get_previous_context (interrupt_task
        (create_task_context initState "u" "q" "").2 "u" false) "u" q =
      get_previous_context (create_task_context initState "u" "q" "").2
        "u" q :=
  c10_interrupt_no_preserve_frame (create_task_context initState "u" "q" "").2
    "u" 0
    { task_id := 0, user_id := "u", query := "q", intent := "",
      status := TaskStatus.queued, created_at := 0, updated_at := 0 }
    (by decide) (by decide) (by decide)

/-- Claim C6: starting from a fresh manager, no sequence of operations ever
makes any user's interruption history exceed 5 entries; and when a
preserving interruption occurs while the history already holds 5 entries,
the oldest entry is evicted: the new history is the old one without its
first (oldest) element, with the newly interrupted context appended last. -/
theorem c6_history_ring_bounded :
    (∀ (ops : List Op) (u : String),
      (histOf (runOps initState ops) u).length ≤ 5) ∧
    (∀ (s : ManagerState) (u : String) (i : Nat) (ctx : TaskContext),
      dictGet? s.user_tasks u = some i → s.ctxs[i]? = some ctx →
      (histOf s u).length = 5 →
      histOf (interrupt_task s u true) u = (histOf s u).drop 1 ++ [i]) := by
  constructor
  · intro ops u
    exact histLen_le_of_histBounded (histBounded_runOps (by decide))
  · intro s u i ctx h1 h2 hfull
    obtain ⟨hset, hut, hclk, hhist, hlen, hframe⟩ :=
      interrupt_active (b := true) h1 h2
    simp only [interrupt_task]
    have htail : 5 < (histOf s u).length + 1 := by omega
    have hh1 : (interrupt_task_internal s u true).history =
        dictSet s.history u ((histOf s u ++ [i]).tail) := by
      rw [hhist]
      simp [htail]
    unfold histOf
    rw [hh1, dictGet?_dictSet_self]
    obtain ⟨a, t, ht⟩ : ∃ a t, histOf s u = a :: t := by
      cases hcase : histOf s u with
      | nil =>
        rw [hcase] at hfull
        simp at hfull
      | cons a t => exact ⟨a, t, rfl⟩
    unfold histOf at ht
    simp only [histOf]
    rw [ht]
    simp

/-- Witness for C6: a run with seven supersessions keeps the history at 5
entries, and an eighth preserving interrupt on a full history evicts the
oldest entry. -/
theorem c6_witness :
    (histOf (runOps initState [Op.create "u" "q1" "", Op.create "u" "q2" "",
      Op.create "u" "q3" "", Op.create "u" "q4" "", Op.create "u" "q5" "",
      Op.create "u" "q6" "", Op.create "u" "q7" ""]) "u").length ≤ 5 ∧
    histOf (interrupt_task (runOps initState [Op.create "u" "q" "",
        Op.interrupt "u" true, Op.interrupt "u" true, Op.interrupt "u" true,
        Op.interrupt "u" true, Op.interrupt "u" true]) "u" true) "u" =
      (histOf (runOps initState [Op.create "u" "q" "",
        Op.interrupt "u" true, Op.interrupt "u" true, Op.interrupt "u" true,
        Op.interrupt "u" true, Op.interrupt "u" true]) "u").drop 1 ++ [0] :=
  ⟨c6_history_ring_bounded.1 [Op.create "u" "q1" "", Op.create "u" "q2" "",
      Op.create "u" "q3" "", Op.create "u" "q4" "", Op.create "u" "q5" "",
      Op.create "u" "q6" "", Op.create "u" "q7" ""] "u",
   c6_history_ring_bounded.2 (runOps initState [Op.create "u" "q" "",
       Op.interrupt "u" true, Op.interrupt "u" true, Op.interrupt "u" true,
       Op.interrupt "u" true, Op.interrupt "u" true]) "u" 0
     { task_id := 0, user_id := "u", query := "q", intent := "",
       status := TaskStatus.interrupted, created_at := 0, updated_at := 5,
       cancel_event := true }
     (by decide) (by decide) (by decide)⟩

theorem savePartial_partialsOf (st : StateStore) (req agent payload : String) :
    (st.savePartial req agent payload).partialsOf req agent =
      st.partialsOf req agent ++
        [{ data := payload, timestamp := st.clock,
           sequence := (st.partialsOf req agent).length }] := by
  simp only [StateStore.savePartial, StateStore.partialsOf,
    dictGet?_dictSet_self, Option.getD_some]

theorem savePartial_frame (st : StateStore) (req agent payload : String)
    (req' agent' : String) (h : ¬ (req' = req ∧ agent' = agent)) :
    (st.savePartial req agent payload).partialsOf req' agent' =
      st.partialsOf req' agent' := by
  by_cases hr : req' = req
  · subst hr
    have ha : agent' ≠ agent := fun e => h ⟨rfl, e⟩
    simp only [StateStore.savePartial, StateStore.partialsOf,
      dictGet?_dictSet_self, Option.getD_some,
      dictGet?_dictSet_ne _ _ _ _ ha]
  · simp only [StateStore.savePartial, StateStore.partialsOf,
      dictGet?_dictSet_ne _ _ _ _ hr]

theorem saveMany_sequences (req agent : String) (ps : List String) :
    ∀ (st : StateStore),
    ((st.saveMany req agent ps).partialsOf req agent).map
        PartialEntry.sequence =
      (st.partialsOf req agent).map PartialEntry.sequence ++
        List.range' (st.partialsOf req agent).length ps.length ∧
    ((st.saveMany req agent ps).partialsOf req agent).map
        PartialEntry.data =
      (st.partialsOf req agent).map PartialEntry.data ++ ps := by
  induction ps with
  | nil =>
    intro st
    simp [StateStore.saveMany]
  | cons p rest ih =>
    intro st
    have hstep := savePartial_partialsOf st req agent p
    have := ih (st.savePartial req agent p)
    rw [hstep] at this
    simp only [StateStore.saveMany]
    rw [this.1, this.2]
    constructor
    · simp [List.range'_succ]
    · simp

theorem getLast?_ring_append {h : List Nat} {i : Nat} :
    (if 5 < (h ++ [i]).length then (h ++ [i]).tail
     else h ++ [i]).getLast? = some i := by
  split
  · rename_i hcond
    cases h with
    | nil => simp at hcond
    | cons a t =>
      simp only [List.cons_append, List.tail_cons]
      exact List.getLast?_concat t
  · exact List.getLast?_concat h

/-- Claim C7: with an active context, `save_partial_results` overwrites
`partial_results[agent]` with the payload and refreshes `updated_at`; and
the PartialResultLog component (`StateStore.save_partial`, which the spec's
façade composes with it) appends an entry whose sequence number equals the
number of entries already present for that (request, agent) pair — so the
n-th append for a pair carries sequence n-1 — never overwriting a prior
entry (the old log stays a prefix and every other (request, agent) log is
untouched). -/
theorem c7_save_partial_results_and_log :
    (∀ (s : ManagerState) (u agent res : String) (i : Nat)
        (ctx : TaskContext),
      dictGet? s.user_tasks u = some i → s.ctxs[i]? = some ctx →
      (save_partial_results s u agent res).ctxs[i]? =
        some { ctx with
               partial_results := dictSet ctx.partial_results agent res,
               updated_at := s.clock } ∧
      dictGet? (dictSet ctx.partial_results agent res) agent = some res) ∧
    (∀ (st : StateStore) (req agent payload : String),
      (st.savePartial req agent payload).partialsOf req agent =
        st.partialsOf req agent ++
          [{ data := payload, timestamp := st.clock,
             sequence := (st.partialsOf req agent).length }] ∧
      ∀ req' agent', ¬ (req' = req ∧ agent' = agent) →
        (st.savePartial req agent payload).partialsOf req' agent' =
          st.partialsOf req' agent') ∧
    (∀ (st : StateStore) (req agent : String) (ps : List String),
      ((st.saveMany req agent ps).partialsOf req agent).map
          PartialEntry.sequence =
        (st.partialsOf req agent).map PartialEntry.sequence ++
          List.range' (st.partialsOf req agent).length ps.length) := by
  refine ⟨?_, ?_, ?_⟩
  · intro s u agent res i ctx h1 h2
    simp only [save_partial_results, h1, h2]
    exact ⟨List.getElem?_set_self (getElem?_lt h2), dictGet?_dictSet_self _ _ _⟩
  · intro st req agent payload
    exact ⟨savePartial_partialsOf st req agent payload,
      fun req' agent' h => savePartial_frame st req agent payload req' agent' h⟩
  · intro st req agent ps
    exact (saveMany_sequences req agent ps st).1

/-- Witness for C7 at concrete inputs: saving "count:3" for agent "flight"
on a fresh context overwrites the map and bumps updated_at, and three log
appends for one (request, agent) pair carry sequences 0, 1, 2. -/
theorem c7_witness :
    (save_partial_results (create_task_context initState "u" "q" "").2 "u"
        "flight" "count:3").ctxs[0]? =
      some { task_id := 0, user_id := "u", query := "q", intent := "",
             status := TaskStatus.queued, created_at := 0, updated_at := 1,
             partial_results := [("flight", "count:3")] } ∧
    ((StateStore.saveMany {} "r" "flight" ["p0", "p1", "p2"]).partialsOf "r"
        "flight").map PartialEntry.sequence = [0, 1, 2] :=
  ⟨(c7_save_partial_results_and_log.1
      (create_task_context initState "u" "q" "").2 "u" "flight" "count:3" 0
      { task_id := 0, user_id := "u", query := "q", intent := "",
        status := TaskStatus.queued, created_at := 0, updated_at := 0 }
      (by decide) (by decide)).1,
   c7_save_partial_results_and_log.2.2 {} "r" "flight" ["p0", "p1", "p2"]⟩

/-- Claim C3: partial results saved before a supersession survive it.
After save_partial_results(u, a, p) on the active context and a
superseding create_task_context(u, q2), get_previous_context(u, q) (for
every q) returns a snapshot carrying the superseded context's query,
intent, agents_completed, its partial_results with agent a mapped to
exactly p, and the interruption time; moreover, on well-formed states,
get_previous_context returns none exactly when u's interruption history is
empty. -/
theorem c3_previous_context_after_supersession :
    (∀ (s : ManagerState) (u a p q2 n2 q : String) (i : Nat)
        (ctx : TaskContext),
      dictGet? s.user_tasks u = some i → s.ctxs[i]? = some ctx →
      get_previous_context
          (create_task_context (save_partial_results s u a p) u q2 n2).2
          u q =
        some { previous_query := ctx.query, previous_intent := ctx.intent,
               partial_results := dictSet ctx.partial_results a p,
               agents_completed := ctx.agents_completed,
               interrupted_at := (save_partial_results s u a p).clock } ∧
      dictGet? (dictSet ctx.partial_results a p) a = some p) ∧
    (∀ (s : ManagerState) (u q : String), wf s = true →
      (get_previous_context s u q = none ↔ histOf s u = [])) := by
  constructor
  · intro s u a p q2 n2 q i ctx h1 h2
    refine ⟨?_, dictGet?_dictSet_self _ _ _⟩
    have hs1 : save_partial_results s u a p =
        { s with
          ctxs := s.ctxs.set i
            { ctx with partial_results := dictSet ctx.partial_results a p,
                       updated_at := s.clock },
          clock := s.clock + 1 } := by
      simp only [save_partial_results, h1, h2]
    rw [hs1]
    have h1' : dictGet? ({ s with
        ctxs := s.ctxs.set i
          { ctx with partial_results := dictSet ctx.partial_results a p,
                     updated_at := s.clock },
        clock := s.clock + 1 } : ManagerState).user_tasks u = some i := h1
    have h2' : (({ s with
        ctxs := s.ctxs.set i
          { ctx with partial_results := dictSet ctx.partial_results a p,
                     updated_at := s.clock },
        clock := s.clock + 1 } : ManagerState).ctxs)[i]? =
        some { ctx with partial_results := dictSet ctx.partial_results a p,
                        updated_at := s.clock } :=
      List.getElem?_set_self (getElem?_lt h2)
    obtain ⟨hset, hut, hclk, hhist, hlen, hframe⟩ :=
      interrupt_active (b := true) h1' h2'
    have hact : (dictGet? ({ s with
        ctxs := s.ctxs.set i
          { ctx with partial_results := dictSet ctx.partial_results a p,
                     updated_at := s.clock },
        clock := s.clock + 1 } : ManagerState).user_tasks u).isSome = true := by
      rw [h1']
      rfl
    have hhist2 : (interrupt_task_internal ({ s with
        ctxs := s.ctxs.set i
          { ctx with partial_results := dictSet ctx.partial_results a p,
                     updated_at := s.clock },
        clock := s.clock + 1 } : ManagerState) u true).history =
        dictSet s.history u
          (if 5 < (histOf s u ++ [i]).length then (histOf s u ++ [i]).tail
           else histOf s u ++ [i]) := by
      rw [hhist]
      simp [histOf]
    rw [create_eq rfl]
    simp only [hact, if_true]
    simp only [get_previous_context, hhist2, dictGet?_dictSet_self,
      getLast?_ring_append]
    have hi1 : i < (interrupt_task_internal ({ s with
        ctxs := s.ctxs.set i
          { ctx with partial_results := dictSet ctx.partial_results a p,
                     updated_at := s.clock },
        clock := s.clock + 1 } : ManagerState) u true).ctxs.length := by
      rw [hlen]
      simpa using getElem?_lt h2
    rw [List.getElem?_append_left hi1, hset]
  · intro s u q hwf
    simp only [wf, Bool.and_eq_true] at hwf
    obtain ⟨⟨hw1, hw2⟩, hw3⟩ := hwf
    constructor
    · intro hn
      cases hh : dictGet? s.history u with
      | none => simp [histOf, hh]
      | some hist =>
        cases hl : hist.getLast? with
        | none =>
          have he : hist = [] := List.getLast?_eq_none_iff.mp hl
          simp [histOf, hh, he]
        | some j =>
          exfalso
          have hjmem : j ∈ hist :=
            List.mem_of_mem_getLast? (Option.mem_def.mpr hl)
          have hjlt : j < s.ctxs.length := by
            have hb := all_dictGet? hw2 hh
            simp only [List.all_eq_true] at hb
            have := hb j hjmem
            simpa using this
          obtain ⟨c, hc⟩ : ∃ c, s.ctxs[j]? = some c :=
            ⟨s.ctxs[j], List.getElem?_eq_getElem hjlt⟩
          simp [get_previous_context, hh, hl, hc] at hn
    · intro he
      cases hh : dictGet? s.history u with
      | none => simp [get_previous_context, hh]
      | some hist =>
        have : hist = [] := by
          unfold histOf at he
          rw [hh] at he
          simpa using he
        subst this
        simp [get_previous_context, hh]

/-- Witness for C3 at the spec's concrete scenario: flights query, partial
flight results, superseding hotels query. -/
theorem c3_witness :
    get_previous_context
        (create_task_context (save_partial_results
          (create_task_context initState "u" "flights NYC" "flight").2
          "u" "flight" "count:3") "u" "hotels Paris" "hotel").2 "u" "z" =
      some { previous_query := "flights NYC", previous_intent := "flight",
             partial_results := [("flight", "count:3")],
             agents_completed := [], interrupted_at := 2 } ∧
    (get_previous_context initState "u" "x" = none ↔
      histOf initState "u" = []) :=
  ⟨((c3_previous_context_after_supersession.1
      (create_task_context initState "u" "flights NYC" "flight").2
      "u" "flight" "count:3" "hotels Paris" "hotel" "z" 0
      { task_id := 0, user_id := "u", query := "flights NYC",
        intent := "flight", status := TaskStatus.queued, created_at := 0,
        updated_at := 0 }
      (by decide) (by decide)).1),
   c3_previous_context_after_supersession.2 initState "u" "x" (by decide)⟩

/-- Claim C1: for consecutive create_task_context calls for a user, the
first context ends with its cancellation event signaled, status
INTERRUPTED, its query intact, and its handle present in the user's
interruption history; the active context afterwards is the second one, in
status QUEUED with the new query, empty partial_results and
agents_completed, and a task id that no other context in the manager
carries (freshness/uniqueness of the id, for well-formed start states). -/
theorem c1_supersession_fresh_context (s : ManagerState)
    (u q1 n1 q2 n2 : String) (c1 : TaskContext) (s1 : ManagerState)
    (c2 : TaskContext) (s2 : ManagerState) (hwf : wf s = true)
    (h1 : create_task_context s u q1 n1 = (c1, s1))
    (h2 : create_task_context s1 u q2 n2 = (c2, s2)) :
    (∃ c1', s2.ctxs[c1.task_id]? = some c1' ∧ c1'.cancel_event = true ∧
      c1'.status = TaskStatus.interrupted ∧ c1'.query = q1) ∧
    c1.task_id ∈ histOf s2 u ∧
    dictGet? s2.user_tasks u = some c2.task_id ∧
    s2.ctxs[c2.task_id]? = some c2 ∧
    c2.status = TaskStatus.queued ∧ c2.query = q2 ∧
    c2.partial_results = [] ∧ c2.agents_completed = [] ∧
    c2.task_id ≠ c1.task_id ∧
    (∀ (j : Nat) (c : TaskContext), s2.ctxs[j]? = some c →
      j ≠ c2.task_id → c.task_id ≠ c2.task_id) := by
  rw [create_eq rfl] at h1
  set sA := if (dictGet? s.user_tasks u).isSome
            then interrupt_task_internal s u true else s with hA
  injection h1 with hc1 hs1
  have hwA : wf sA = true := by
    rw [hA]
    by_cases hact : (dictGet? s.user_tasks u).isSome
    · rw [if_pos hact]
      exact wf_interrupt hwf
    · rw [if_neg hact]
      exact hwf
  have hw1 : wf s1 = true := by
    rw [← hs1]
    exact wf_create_aux hwA rfl
  have hu1 : dictGet? s1.user_tasks u = some sA.ctxs.length := by
    rw [← hs1]
    exact dictGet?_dictSet_self _ _ _
  have hx1 : s1.ctxs[sA.ctxs.length]? = some c1 := by
    rw [← hs1, ← hc1]
    exact List.getElem?_concat_length _ _
  rw [create_eq rfl] at h2
  have hB : (if (dictGet? s1.user_tasks u).isSome
      then interrupt_task_internal s1 u true else s1) =
      interrupt_task_internal s1 u true := by
    rw [hu1]
    rfl
  rw [hB] at h2
  injection h2 with hc2 hs2
  obtain ⟨hset, hut, hclk, hhist, hlen, hframe⟩ :=
    interrupt_active (b := true) hu1 hx1
  have hwB : wf (interrupt_task_internal s1 u true) = true := wf_interrupt hw1
  have hw2 : wf s2 = true := by
    rw [← hs2]
    exact wf_create_aux hwB rfl
  have hid1 : c1.task_id = sA.ctxs.length := by rw [← hc1]
  have hid2 : c2.task_id = (interrupt_task_internal s1 u true).ctxs.length := by
    rw [← hc2]
  have hlt1 : c1.task_id < (interrupt_task_internal s1 u true).ctxs.length := by
    rw [hid1, hlen, ← hs1]
    simp
  refine ⟨?_, ?_, ?_, ?_, ?_, ?_, ?_, ?_, ?_, ?_⟩
  · refine ⟨{ c1 with cancel_event := true,
                      status := TaskStatus.interrupted,
                      updated_at := s1.clock }, ?_, rfl, rfl, by rw [← hc1]⟩
    rw [← hs2]
    have : ((interrupt_task_internal s1 u true).ctxs ++
        [{ task_id := (interrupt_task_internal s1 u true).ctxs.length,
           user_id := u, query := q2, intent := n2,
           status := TaskStatus.queued,
           created_at := (interrupt_task_internal s1 u true).clock,
           updated_at :=
             (interrupt_task_internal s1 u true).clock }])[c1.task_id]? =
        (interrupt_task_internal s1 u true).ctxs[c1.task_id]? :=
      List.getElem?_append_left hlt1
    rw [this, hid1, hset, hid1]
  · rw [← hs2]
    have hs2hist : ({ interrupt_task_internal s1 u true with
        ctxs := (interrupt_task_internal s1 u true).ctxs ++
          [{ task_id := (interrupt_task_internal s1 u true).ctxs.length,
             user_id := u, query := q2, intent := n2,
             status := TaskStatus.queued,
             created_at := (interrupt_task_internal s1 u true).clock,
             updated_at := (interrupt_task_internal s1 u true).clock }],
        user_tasks := dictSet (interrupt_task_internal s1 u true).user_tasks
          u (interrupt_task_internal s1 u true).ctxs.length,
        clock := (interrupt_task_internal s1 u true).clock + 1 } :
        ManagerState).history = (interrupt_task_internal s1 u true).history :=
      rfl
    unfold histOf
    rw [hs2hist, hhist]
    simp only [if_true]
    rw [dictGet?_dictSet_self]
    rw [hid1]
    exact mem_ring_append
  · rw [← hs2, hid2]
    exact dictGet?_dictSet_self _ _ _
  · rw [← hs2, hid2, ← hc2]
    exact List.getElem?_concat_length _ _
  · rw [← hc2]
  · rw [← hc2]
  · rw [← hc2]
  · rw [← hc2]
  · rw [hid1, hid2, hlen, ← hs1]
    simp
  · intro j c hjc hjne
    simp only [wf, Bool.and_eq_true] at hw2
    have := idsFrom_get? hw2.2 hjc
    omega

/-- Witness for C1 at concrete inputs: two creates for user "u" from a
fresh manager; the first context's handle 0 lands in the history, the
active handle is the second context's fresh id 1, queued. -/
theorem c1_witness :
    0 ∈ histOf (create_task_context (create_task_context initState "u" "q1"
        "").2 "u" "q2" "").2 "u" ∧
    dictGet? (create_task_context (create_task_context initState "u" "q1"
        "").2 "u" "q2" "").2.user_tasks "u" = some 1 ∧
    (create_task_context (create_task_context initState "u" "q1" "").2 "u"
        "q2" "").1.status = TaskStatus.queued ∧
    (create_task_context (create_task_context initState "u" "q1" "").2 "u"
        "q2" "").1.task_id ≠
      (create_task_context initState "u" "q1" "").1.task_id := by
  have H := c1_supersession_fresh_context initState "u" "q1" "" "q2" ""
    (create_task_context initState "u" "q1" "").1
    (create_task_context initState "u" "q1" "").2
    (create_task_context (create_task_context initState "u" "q1" "").2 "u"
      "q2" "").1
    (create_task_context (create_task_context initState "u" "q1" "").2 "u"
      "q2" "").2
    (by decide) rfl rfl
  exact ⟨H.2.1, H.2.2.1, H.2.2.2.2.1, H.2.2.2.2.2.2.2.2.1⟩
